import Mathlib

/-!
# Verification of `json-objects-to-csv` (src/src/lib.rs, src/src/error.rs)

Shallow embedding of the crate's core conversion pipeline.

Modelling conventions:
* `serde_json::Value` is `Json`; a `Number` is carried as its canonical
  literal text (the string `Display`/`to_string` produces), since no code
  under verification computes with numbers.
* `serde_json::Map` / `BTreeMap<String, Value>` are sorted association
  lists (`FlatMap`) with `mapInsert` (insert-or-replace, keeping sorted
  order), matching `BTreeMap` iteration order.  `BTreeSet<String>` is a
  sorted, deduplicated `List String` with `setInsert`.
* The external collaborator `flatten_json_object::Flattener::flatten` is a
  parameter `flatten : FlattenFn`; its error payload is a `String`.
* Rust panics (`unreachable!`) are `RunResult.panic` / `Option.none`.
* The CSV writer is modelled by the list of records passed to
  `write_record`, in order; the writer itself is deterministic, so
  byte-level claims are stated for an arbitrary byte renderer applied to
  that record list.  The sink is modelled as infallible (I/O failure is
  outside the claims considered here).
* The temporary (spill) file of the streaming converter is the list of JSON
  documents serialized to it, in order; re-parsing a document that was
  just serialized from a map yields the same map (serde_json round-trip),
  so pass 2 reads the spill list back directly.
* The lazy JSON decoding of the byte stream in `convert_from_reader` is the
  external serde_json `Deserializer`; the converter is therefore modelled
  on the decoded sequence of `Json` values.
-/

namespace JsonToCsv

/-- Embeds `flatten_json_object::ArrayFormatting`. -/
inductive ArrayFormatting where
  | plain
  | surrounded (first last : String)
  deriving DecidableEq

/-- The configuration of `flatten_json_object::Flattener` that the code
under verification reads or writes (`key_separator`, `array_formatting`,
and the preserve-empties flags it merely forwards). -/
structure Flattener where
  keySeparator : String
  arrayFormatting : ArrayFormatting
  preserveEmptyArrays : Bool
  preserveEmptyObjects : Bool
  deriving DecidableEq

/-- Embeds `Flattener::set_key_separator`. -/
def Flattener.setKeySeparator (f : Flattener) (sep : String) : Flattener :=
  { f with keySeparator := sep }

/-- Embeds `Flattener::set_array_formatting`. -/
def Flattener.setArrayFormatting (f : Flattener) (fmt : ArrayFormatting) : Flattener :=
  { f with arrayFormatting := fmt }

/-- Embeds `serde_json::Value`; numbers carry their canonical literal text. -/
inductive Json where
  | null
  | bool (b : Bool)
  | num (lit : String)
  | str (s : String)
  | arr (elems : List Json)
  | obj (fields : List (String × Json))

/-- Embeds the `error::Error` enum of the crate (src/src/error.rs); external error payloads
are carried as strings. -/
inductive Error where
  | flattening (msg : String)
  | flattenedKeysCollision
  | writtingCSV (msg : String)
  | parsingJson (msg : String)
  | inputOutput (msg : String)
  | intoFile (msg : String)
  deriving DecidableEq

/-- Outcome of running a fallible Rust function that may also panic
(`unreachable!`). -/
inductive RunResult (α : Type) where
  | panic
  | err (e : Error)
  | ok (val : α)
  deriving DecidableEq

/-- A flattened JSON object: `serde_json::Map<String, Value>` as a sorted
association list. -/
abbrev FlatMap := List (String × Json)

/-- Strict lexicographic comparison of character lists by code point;
on UTF-8 data this coincides with the Rust byte-wise `String` ordering. -/
def charsLt : List Char → List Char → Bool
  | [], [] => false
  | [], _ :: _ => true
  | _ :: _, [] => false
  | c :: cs, d :: ds =>
    if c.toNat < d.toNat then true
    else if d.toNat < c.toNat then false
    else charsLt cs ds

/-- The Rust `String` ordering (`Ord` on `String`), as a boolean. -/
def strLt (a b : String) : Bool := charsLt a.data b.data

/-- Embeds `BTreeSet<String>::insert`: insert into a sorted deduplicated list. -/
def setInsert (x : String) : List String → List String
  | [] => [x]
  | y :: ys =>
    if strLt x y then x :: y :: ys
    else if x = y then y :: ys
    else y :: setInsert x ys

/-- Embeds `Map::insert` on a sorted association list: insert or replace,
keeping sorted key order (the new value wins on an existing key). -/
def mapInsert (k : String) (v : Json) : FlatMap → FlatMap
  | [] => [(k, v)]
  | (k', v') :: rest =>
    if strLt k k' then (k, v) :: (k', v') :: rest
    else if k = k' then (k, v) :: rest
    else (k', v') :: mapInsert k v rest

/-- Embeds `Map::remove`: returns the removed value (first occurrence) and the
remaining map. -/
def mapRemove (k : String) : FlatMap → Option Json × FlatMap
  | [] => (none, [])
  | (k', v') :: rest =>
    if k = k' then (some v', rest)
    else
      let r := mapRemove k rest
      (r.1, (k', v') :: r.2)

/-- Embeds a `Map::get`-style lookup (first occurrence). -/
def mapGet (k : String) : FlatMap → Option Json
  | [] => none
  | (k', v) :: rest => if k = k' then some v else mapGet k rest

/-- Replace the leftmost occurrences of `pat` (non-overlapping, scanning
left to right) by `repl`, as `str::replace` does for a non-empty pattern.
Structural recursion on fuel so that the kernel can evaluate it; one unit
of fuel is spent per consumed character, so `s.length` fuel is exact. -/
def replaceAux (pat repl : List Char) : List Char → Nat → List Char
  | s, 0 => s
  | [], _ => []
  | c :: rest, fuel + 1 =>
    if pat.isPrefixOf (c :: rest) then
      repl ++ replaceAux pat repl (rest.drop (pat.length - 1)) fuel
    else c :: replaceAux pat repl rest fuel

/-- Embeds `str::replace` on strings.  An empty pattern leaves the string
unchanged; the call sites in `transform_key` only ever use the reserved
separator strings as patterns, which are non-empty. -/
def strReplace (s pat repl : String) : String :=
  if pat.data = [] then s
  else ⟨replaceAux pat.data repl.data s.data s.data.length⟩

/-- The reserved key separator `"␝"` used by `Json2Csv::new`. -/
def keySepReserved : String := "␝"

/-- The reserved array-start marker `"␞"` used by `Json2Csv::new`. -/
def arrayStartReserved : String := "␞"

/-- The reserved array-end marker `"␟"` used by `Json2Csv::new`. -/
def arrayEndReserved : String := "␟"

/-- The `Json2Csv` struct: the internally used (safe) flattener and the
flattener provided by the user. -/
structure Json2Csv where
  flattener : Flattener
  originalFlattener : Flattener
  deriving DecidableEq

/-- Embeds `Json2Csv::new`: derive the safe flattener by substituting the
reserved control characters for the caller-chosen separator and (for
`Surrounded`) array markers. -/
def Json2Csv.new (flattener : Flattener) : Json2Csv :=
  { flattener :=
      match flattener.arrayFormatting with
      | .plain => flattener.setKeySeparator keySepReserved
      | .surrounded _ _ =>
        (flattener.setKeySeparator keySepReserved).setArrayFormatting
          (.surrounded arrayStartReserved arrayEndReserved)
    originalFlattener := flattener }

/-- Embeds `Json2Csv::transform_key`: map a safe-form key back to the caller-chosen
separator and array markers.  `none` models the `unreachable!` panic in
the branch where the original formatting is `Surrounded` but the internal
one is `Plain`. -/
def Json2Csv.transformKey (j : Json2Csv) (key : String) : Option String :=
  let key := strReplace key j.flattener.keySeparator j.originalFlattener.keySeparator
  match j.originalFlattener.arrayFormatting with
  | .plain => some key
  | .surrounded os oe =>
    match j.flattener.arrayFormatting with
    | .surrounded s e => some (strReplace (strReplace key e oe) s os)
    | .plain => none

/-- The type of the external `Flattener::flatten` collaborator (already
specialized to the safe config stored in `Json2Csv.flattener`); errors
carry the `flatten_json_object::Error` message. -/
abbrev FlattenFn := Json → Except String Json

/-- One `self.flattener.flatten(obj)?` call followed by the
`Value::Object(map)` match; a non-object result is the `unreachable!`
panic. -/
def flattenStep (flatten : FlattenFn) (v : Json) : RunResult FlatMap :=
  match flatten v with
  | .error e => .err (.flattening e)
  | .ok (.obj m) => .ok m
  | .ok _ => .panic

/-- The pair of header accumulators: `orig_headers` (safe form) and
`headers` (caller-facing form), both `BTreeSet<String>`. -/
structure Headers where
  origHeaders : List String
  headers : List String
  deriving DecidableEq

/-- The shared per-object loop body of both converters: iterate the
flattened map in `BTreeMap` order, transform each key, build the
transformed map (`map.insert`, last write wins) and insert the key into
both header sets.  `none` models a `transform_key` panic. -/
def observeMap (j : Json2Csv) : FlatMap → FlatMap → Headers → Option (FlatMap × Headers)
  | [], m, hs => some (m, hs)
  | (okey, v) :: rest, m, hs =>
    match j.transformKey okey with
    | none => none
    | some k =>
      observeMap j rest (mapInsert k v m)
        ⟨setInsert okey hs.origHeaders, setInsert k hs.headers⟩

/-- First loop of `convert_from_array`: flatten every object, collecting
`orig_flat_maps`; the first failure aborts. -/
def flattenAll (flatten : FlattenFn) : List Json → RunResult (List FlatMap)
  | [] => .ok []
  | v :: vs =>
    match flattenStep flatten v with
    | .panic => .panic
    | .err e => .err e
    | .ok m =>
      match flattenAll flatten vs with
      | .panic => .panic
      | .err e => .err e
      | .ok ms => .ok (m :: ms)

/-- Second loop of `convert_from_array`: run the per-object body over all
flattened maps, collecting `flat_maps` and threading the header sets. -/
def observeAll (j : Json2Csv) : List FlatMap → Headers → Option (List FlatMap × Headers)
  | [], hs => some ([], hs)
  | om :: oms, hs =>
    match observeMap j om [] hs with
    | none => none
    | some (m, hs') =>
      match observeAll j oms hs' with
      | none => none
      | some (ms, hs'') => some (m :: ms, hs'')

/-- Value rendering inside `build_record`: a present key is
removed from the map and rendered, an absent one yields `""`. -/
def renderValue : Json → String
  | .str s => s
  | .bool b => if b then "true" else "false"
  | .num lit => lit
  | .null => ""
  | .arr _ => ""
  | .obj _ => ""

/-- Embeds `build_record` (src/src/lib.rs:362-384): one cell per header, in header order. -/
def buildRecord : List String → FlatMap → List String
  | [], _ => []
  | h :: hs, m =>
    match mapRemove h m with
    | (some v, m') => renderValue v :: buildRecord hs m'
    | (none, m') => "" :: buildRecord hs m'

/-- What a converter did to its CSV sink: the records passed to
`write_record`, in order, and the returned result. -/
structure ConvOutcome where
  writes : List (List String)
  result : RunResult Unit
  deriving DecidableEq

/-- Embeds `Json2Csv::convert_from_array` (src/src/lib.rs:238-289). -/
def Json2Csv.convertFromArray (j : Json2Csv) (flatten : FlattenFn)
    (objects : List Json) : ConvOutcome :=
  match flattenAll flatten objects with
  | .panic => ⟨[], .panic⟩
  | .err e => ⟨[], .err e⟩
  | .ok origFlatMaps =>
    match observeAll j origFlatMaps ⟨[], []⟩ with
    | none => ⟨[], .panic⟩
    | some (flatMaps, hs) =>
      if hs.headers = [] then ⟨[], .ok ()⟩
      else if hs.headers.length ≠ hs.origHeaders.length then
        ⟨[], .err .flattenedKeysCollision⟩
      else ⟨hs.headers :: flatMaps.map (buildRecord hs.headers), .ok ()⟩

/-- What `convert_from_reader` did: the flattened JSON documents
serialized to the temporary (spill) file in order, the records passed to
`write_record`, and the returned result. -/
structure ReaderOutcome where
  spill : List FlatMap
  writes : List (List String)
  result : RunResult Unit

/-- Pass 1 of `convert_from_reader`: per decoded object, flatten, run the
per-object body, and serialize the transformed map to the spill file.
Returns the spill contents so far, the header sets, and the loop
outcome. -/
def readerLoop (j : Json2Csv) (flatten : FlattenFn) :
    List Json → Headers → List FlatMap × Headers × RunResult Unit
  | [], hs => ([], hs, .ok ())
  | v :: vs, hs =>
    match flattenStep flatten v with
    | .panic => ([], hs, .panic)
    | .err e => ([], hs, .err e)
    | .ok om =>
      match observeMap j om [] hs with
      | none => ([], hs, .panic)
      | some (m, hs') =>
        let rest := readerLoop j flatten vs hs'
        (m :: rest.1, rest.2.1, rest.2.2)

/-- Embeds `Json2Csv::convert_from_reader` (src/src/lib.rs:302-359), on the
decoded sequence of JSON values.  Pass 2 re-reads the spill file; since
each spilled document was serialized from a map, re-parsing yields that
same map. -/
def Json2Csv.convertFromReader (j : Json2Csv) (flatten : FlattenFn)
    (objects : List Json) : ReaderOutcome :=
  let p := readerLoop j flatten objects ⟨[], []⟩
  match p.2.2 with
  | .panic => ⟨p.1, [], .panic⟩
  | .err e => ⟨p.1, [], .err e⟩
  | .ok _ =>
    if p.2.1.headers = [] then ⟨p.1, [], .ok ()⟩
    else if p.2.1.headers.length ≠ p.2.1.origHeaders.length then
      ⟨p.1, [], .err .flattenedKeysCollision⟩
    else ⟨p.1, p.2.1.headers :: p.1.map (buildRecord p.2.1.headers), .ok ()⟩



theorem charsLt_irrefl : ∀ l : List Char, charsLt l l = false
  | [] => rfl
  | c :: cs => by
    simp only [charsLt]
    rw [if_neg (Nat.lt_irrefl _), if_neg (Nat.lt_irrefl _)]
    exact charsLt_irrefl cs

theorem charsLt_trans : ∀ a b c : List Char,
    charsLt a b = true → charsLt b c = true → charsLt a c = true
  | a, b, c => by
    induction a generalizing b c with
    | nil => cases b <;> cases c <;> simp_all [charsLt]
    | cons x xs ih =>
      cases b with
      | nil => simp [charsLt]
      | cons y ys =>
        cases c with
        | nil => simp [charsLt]
        | cons z zs =>
          intro h1 h2
          by_cases hxy : x.toNat < y.toNat
          · by_cases hyz : y.toNat < z.toNat
            · simp only [charsLt]
              rw [if_pos (by omega : x.toNat < z.toNat)]
            · by_cases hzy : z.toNat < y.toNat
              · simp only [charsLt] at h2
                rw [if_neg hyz, if_pos hzy] at h2
                simp at h2
              · simp only [charsLt]
                rw [if_pos (by omega : x.toNat < z.toNat)]
          · by_cases hyx : y.toNat < x.toNat
            · simp only [charsLt] at h1
              rw [if_neg hxy, if_pos hyx] at h1
              simp at h1
            · by_cases hyz : y.toNat < z.toNat
              · simp only [charsLt]
                rw [if_pos (by omega : x.toNat < z.toNat)]
              · by_cases hzy : z.toNat < y.toNat
                · simp only [charsLt] at h2
                  rw [if_neg hyz, if_pos hzy] at h2
                  simp at h2
                · simp only [charsLt] at h1 h2 ⊢
                  rw [if_neg hxy, if_neg hyx] at h1
                  rw [if_neg hyz, if_neg hzy] at h2
                  rw [if_neg (by omega : ¬ x.toNat < z.toNat),
                    if_neg (by omega : ¬ z.toNat < x.toNat)]
                  exact ih ys zs h1 h2

theorem charsLt_total : ∀ a b : List Char,
    charsLt a b = false → a ≠ b → charsLt b a = true
  | a, b => by
    induction a generalizing b with
    | nil => cases b <;> simp_all [charsLt]
    | cons x xs ih =>
      cases b with
      | nil => simp [charsLt]
      | cons y ys =>
        intro h1 hne
        by_cases hxy : x.toNat < y.toNat
        · simp only [charsLt] at h1
          rw [if_pos hxy] at h1
          simp at h1
        · by_cases hyx : y.toNat < x.toNat
          · simp only [charsLt]
            rw [if_pos hyx]
          · have hxn : x.toNat = y.toNat := by omega
            have hx : x = y := Char.ext (UInt32.toNat.inj hxn)
            simp only [charsLt] at h1 ⊢
            rw [if_neg hxy, if_neg hyx] at h1
            rw [if_neg hyx, if_neg hxy]
            subst hx
            exact ih ys h1 (fun he => hne (by rw [he]))



theorem strLt_irrefl (s : String) : strLt s s = false := charsLt_irrefl s.data

theorem strLt_trans {a b c : String} (h1 : strLt a b = true) (h2 : strLt b c = true) :
    strLt a c = true := charsLt_trans a.data b.data c.data h1 h2

theorem str_data_inj {a b : String} (h : a.data = b.data) : a = b := by
  cases a; cases b; simp_all

theorem strLt_total {a b : String} (h1 : strLt a b = false) (hne : a ≠ b) :
    strLt b a = true :=
  charsLt_total a.data b.data h1 (fun he => hne (str_data_inj he))

theorem strLt_ne {a b : String} (h : strLt a b = true) : a ≠ b := by
  intro he
  rw [he, strLt_irrefl] at h
  exact Bool.noConfusion h

/-- Sortedness in strictly increasing `strLt` order: what it means for a
list of strings to be the in-order listing of a `BTreeSet<String>`. -/
def StrSorted (l : List String) : Prop := l.Pairwise (fun a b => strLt a b = true)

theorem mem_setInsert (x y : String) : ∀ l, (y ∈ setInsert x l ↔ y = x ∨ y ∈ l)
  | [] => by simp [setInsert]
  | z :: zs => by
    simp only [setInsert]
    split_ifs with h1 h2
    · simp only [List.mem_cons]
    · subst h2
      simp only [List.mem_cons]
      tauto
    · simp only [List.mem_cons, mem_setInsert x y zs]
      tauto

theorem sorted_setInsert (x : String) : ∀ l, StrSorted l → StrSorted (setInsert x l)
  | [], _ => by simp [setInsert, StrSorted]
  | z :: zs, h => by
    rcases List.pairwise_cons.mp h with ⟨hz, hzs⟩
    simp only [setInsert]
    split_ifs with h1 h2
    · refine List.pairwise_cons.mpr ⟨?_, h⟩
      intro b hb
      rcases List.mem_cons.mp hb with rfl | hb
      · exact h1
      · exact strLt_trans h1 (hz b hb)
    · exact h
    · refine List.pairwise_cons.mpr ⟨?_, sorted_setInsert x zs hzs⟩
      intro b hb
      rcases (mem_setInsert x b zs).mp hb with rfl | hb
      · have h1' : strLt b z = false := by simpa using h1
        exact strLt_total h1' h2
      · exact hz b hb

theorem strSorted_nodup {l : List String} (h : StrSorted l) : l.Nodup :=
  h.imp (fun hab => strLt_ne hab)

theorem new_originalFlattener (fl : Flattener) :
    (Json2Csv.new fl).originalFlattener = fl := by
  cases h : fl.arrayFormatting <;> simp [Json2Csv.new, h]

theorem new_arrayFormatting_plain (fl : Flattener) (h : fl.arrayFormatting = .plain) :
    (Json2Csv.new fl).flattener.arrayFormatting = .plain := by
  simp [Json2Csv.new, h, Flattener.setKeySeparator]

theorem new_arrayFormatting_surrounded (fl : Flattener) (a b : String)
    (h : fl.arrayFormatting = .surrounded a b) :
    (Json2Csv.new fl).flattener.arrayFormatting
      = .surrounded arrayStartReserved arrayEndReserved := by
  simp [Json2Csv.new, h, Flattener.setKeySeparator, Flattener.setArrayFormatting]

theorem transformKey_new_isSome (fl : Flattener) (k : String) :
    ((Json2Csv.new fl).transformKey k).isSome = true := by
  cases h : fl.arrayFormatting with
  | plain =>
    simp [Json2Csv.transformKey, new_originalFlattener, h]
  | surrounded a b =>
    simp [Json2Csv.transformKey, new_originalFlattener, h,
      new_arrayFormatting_surrounded fl a b h]

/-- Property that `transform_key` never reaches its `unreachable!` branch on this
`Json2Csv` value. -/
def TransformTotal (j : Json2Csv) : Prop := ∀ k, (j.transformKey k).isSome = true

theorem transformTotal_new (fl : Flattener) : TransformTotal (Json2Csv.new fl) :=
  fun k => transformKey_new_isSome fl k

theorem observeMap_total (j : Json2Csv) (hT : TransformTotal j) :
    ∀ om m hs, ∃ out, observeMap j om m hs = some out
  | [], m, hs => ⟨(m, hs), rfl⟩
  | (k₀, v) :: rest, m, hs => by
    rcases Option.isSome_iff_exists.mp (hT k₀) with ⟨k, hk⟩
    simp only [observeMap, hk]
    exact observeMap_total j hT rest _ _

theorem observeAll_total (j : Json2Csv) (hT : TransformTotal j) :
    ∀ oms hs, ∃ out, observeAll j oms hs = some out
  | [], hs => ⟨([], hs), rfl⟩
  | om :: oms, hs => by
    rcases observeMap_total j hT om [] hs with ⟨⟨m, hs'⟩, hm⟩
    rcases observeAll_total j hT oms hs' with ⟨⟨ms, hs''⟩, ha⟩
    exact ⟨(m :: ms, hs''), by simp [observeAll, hm, ha]⟩



theorem readerLoop_ok (j : Json2Csv) (f : FlattenFn) (hT : TransformTotal j) :
    ∀ objs hs ms, flattenAll f objs = .ok ms →
      ∃ out, observeAll j ms hs = some out ∧
        readerLoop j f objs hs = (out.1, out.2, .ok ())
  | [], hs, ms, h => by
    simp only [flattenAll, RunResult.ok.injEq] at h
    subst h
    exact ⟨([], hs), rfl, rfl⟩
  | v :: vs, hs, ms, h => by
    simp only [flattenAll] at h
    cases hfs : flattenStep f v with
    | panic => simp [hfs] at h
    | err e => simp [hfs] at h
    | ok om =>
      rw [hfs] at h
      cases hfa : flattenAll f vs with
      | panic => simp [hfa] at h
      | err e => simp [hfa] at h
      | ok ms' =>
        rw [hfa] at h
        simp only [RunResult.ok.injEq] at h
        subst h
        rcases observeMap_total j hT om [] hs with ⟨⟨m, hs'⟩, hm⟩
        rcases readerLoop_ok j f hT vs hs' ms' hfa with ⟨⟨spill, hs''⟩, hoa, hrl⟩
        refine ⟨(m :: spill, hs''), ?_, ?_⟩
        · simp [observeAll, hm, hoa]
        · simp [readerLoop, hfs, hm, hrl]

theorem readerLoop_err (j : Json2Csv) (f : FlattenFn) (hT : TransformTotal j) :
    ∀ objs hs e, flattenAll f objs = .err e →
      (readerLoop j f objs hs).2.2 = .err e
  | [], hs, e, h => by simp [flattenAll] at h
  | v :: vs, hs, e, h => by
    simp only [flattenAll] at h
    cases hfs : flattenStep f v with
    | panic => simp [hfs] at h
    | err e' =>
      rw [hfs] at h
      simp only [RunResult.err.injEq] at h
      subst h
      simp [readerLoop, hfs]
    | ok om =>
      rw [hfs] at h
      cases hfa : flattenAll f vs with
      | panic => simp [hfa] at h
      | err e' =>
        rw [hfa] at h
        simp only [RunResult.err.injEq] at h
        rcases observeMap_total j hT om [] hs with ⟨⟨m, hs'⟩, hm⟩
        have hrec := readerLoop_err j f hT vs hs' e' hfa
        rw [h] at hrec
        simp [readerLoop, hfs, hm, hrec]
      | ok ms => simp [hfa] at h

theorem readerLoop_panic (j : Json2Csv) (f : FlattenFn) (hT : TransformTotal j) :
    ∀ objs hs, flattenAll f objs = .panic →
      (readerLoop j f objs hs).2.2 = .panic
  | [], hs, h => by simp [flattenAll] at h
  | v :: vs, hs, h => by
    simp only [flattenAll] at h
    cases hfs : flattenStep f v with
    | panic => simp [readerLoop, hfs]
    | err e => simp [hfs] at h
    | ok om =>
      rw [hfs] at h
      cases hfa : flattenAll f vs with
      | panic =>
        rcases observeMap_total j hT om [] hs with ⟨⟨m, hs'⟩, hm⟩
        have hrec := readerLoop_panic j f hT vs hs' hfa
        simp [readerLoop, hfs, hm, hrec]
      | err e => simp [hfa] at h
      | ok ms => simp [hfa] at h

/-- The two converters always hand the same records to the CSV writer and
return the same result (provided `transform_key` cannot panic, which
`Json2Csv::new` guarantees). -/
theorem convert_writes_result_agree (j : Json2Csv) (f : FlattenFn)
    (objs : List Json) (hT : TransformTotal j) :
    (j.convertFromArray f objs).writes = (j.convertFromReader f objs).writes ∧
      (j.convertFromArray f objs).result = (j.convertFromReader f objs).result := by
  unfold Json2Csv.convertFromArray Json2Csv.convertFromReader
  cases hfa : flattenAll f objs with
  | panic =>
    have h := readerLoop_panic j f hT objs ⟨[], []⟩ hfa
    rcases hp : readerLoop j f objs ⟨[], []⟩ with ⟨spill, hs, r⟩
    rw [hp] at h
    simp at h
    subst h
    simp
  | err e =>
    have h := readerLoop_err j f hT objs ⟨[], []⟩ e hfa
    rcases hp : readerLoop j f objs ⟨[], []⟩ with ⟨spill, hs, r⟩
    rw [hp] at h
    simp at h
    subst h
    simp
  | ok ms =>
    rcases readerLoop_ok j f hT objs ⟨[], []⟩ ms hfa with ⟨⟨spill, hs⟩, hoa, hrl⟩
    dsimp only
    simp only [hoa, hrl]
    by_cases he : hs.headers = []
    · simp [he]
    · by_cases hc : hs.headers.length = hs.origHeaders.length
      · simp [he, hc]
      · simp [he, hc]



/-- The caller-facing (public-key) form of one flattened object: the map
the per-object loop body builds, in isolation from header accumulation. -/
def publicMapOf (j : Json2Csv) : FlatMap → FlatMap → Option FlatMap
  | [], m => some m
  | (k₀, v) :: rest, m =>
    match j.transformKey k₀ with
    | none => none
    | some k => publicMapOf j rest (mapInsert k v m)

/-- The caller-facing forms of a list of flattened objects, in order. -/
def toPublicMaps (j : Json2Csv) : List FlatMap → Option (List FlatMap)
  | [] => some []
  | om :: oms =>
    match publicMapOf j om [] with
    | none => none
    | some m =>
      match toPublicMaps j oms with
      | none => none
      | some ms => some (m :: ms)

theorem observeMap_map (j : Json2Csv) :
    ∀ om m hs m' hs', observeMap j om m hs = some (m', hs') →
      publicMapOf j om m = some m'
  | [], m, hs, m', hs', h => by
    simp only [observeMap, Option.some.injEq, Prod.mk.injEq] at h
    simp [publicMapOf, h.1]
  | (k₀, v) :: rest, m, hs, m', hs', h => by
    simp only [observeMap] at h
    cases hk : j.transformKey k₀ with
    | none => rw [hk] at h; exact Option.noConfusion h
    | some k =>
      rw [hk] at h
      simp only [publicMapOf, hk]
      exact observeMap_map j rest _ _ m' hs' h

theorem observeAll_maps (j : Json2Csv) :
    ∀ oms hs ms' hs', observeAll j oms hs = some (ms', hs') →
      toPublicMaps j oms = some ms'
  | [], hs, ms', hs', h => by
    simp only [observeAll, Option.some.injEq, Prod.mk.injEq] at h
    simp [toPublicMaps, h.1]
  | om :: oms, hs, ms', hs', h => by
    simp only [observeAll] at h
    cases hm : observeMap j om [] hs with
    | none => rw [hm] at h; exact Option.noConfusion h
    | some p =>
      rw [hm] at h
      rcases p with ⟨m, hsMid⟩
      dsimp only at h
      cases ha : observeAll j oms hsMid with
      | none => simp [ha] at h
      | some q =>
        rcases q with ⟨ms'', hs''⟩
        rw [ha] at h
        simp only [Option.some.injEq, Prod.mk.injEq] at h
        rcases h with ⟨h1, h2⟩
        simp only [toPublicMaps, observeMap_map j om [] hs m hsMid hm,
          observeAll_maps j oms hsMid ms'' hs'' ha]
        rw [← h1]




theorem flattenAll_length (f : FlattenFn) :
    ∀ objs ms, flattenAll f objs = .ok ms → ms.length = objs.length
  | [], ms, h => by
    simp only [flattenAll, RunResult.ok.injEq] at h
    subst h
    rfl
  | v :: vs, ms, h => by
    simp only [flattenAll] at h
    cases hfs : flattenStep f v with
    | panic => simp [hfs] at h
    | err e => simp [hfs] at h
    | ok om =>
      rw [hfs] at h
      cases hfa : flattenAll f vs with
      | panic => simp [hfa] at h
      | err e => simp [hfa] at h
      | ok ms' =>
        rw [hfa] at h
        simp only [RunResult.ok.injEq] at h
        subst h
        simp [flattenAll_length f vs ms' hfa]

theorem observeAll_length (j : Json2Csv) :
    ∀ oms hs ms' hs', observeAll j oms hs = some (ms', hs') →
      ms'.length = oms.length
  | [], hs, ms', hs', h => by
    simp only [observeAll, Option.some.injEq, Prod.mk.injEq] at h
    rw [← h.1]
  | om :: oms, hs, ms', hs', h => by
    simp only [observeAll] at h
    cases hm : observeMap j om [] hs with
    | none => rw [hm] at h; exact Option.noConfusion h
    | some p =>
      rw [hm] at h
      rcases p with ⟨m, hsMid⟩
      dsimp only at h
      cases ha : observeAll j oms hsMid with
      | none => simp [ha] at h
      | some q =>
        rcases q with ⟨ms'', hs''⟩
        rw [ha] at h
        simp only [Option.some.injEq, Prod.mk.injEq] at h
        rw [← h.1]
        simp [observeAll_length j oms hsMid ms'' hs'' ha]

theorem observeMap_headers (j : Json2Csv) :
    ∀ om m hs m' hs', observeMap j om m hs = some (m', hs') →
      (∀ s, s ∈ hs'.headers ↔
        s ∈ hs.headers ∨ ∃ kv ∈ om, j.transformKey kv.1 = some s) ∧
      (StrSorted hs.headers → StrSorted hs'.headers)
  | [], m, hs, m', hs', h => by
    simp only [observeMap, Option.some.injEq, Prod.mk.injEq] at h
    rw [← h.2]
    simp
  | (k₀, v) :: rest, m, hs, m', hs', h => by
    simp only [observeMap] at h
    cases hk : j.transformKey k₀ with
    | none => rw [hk] at h; exact Option.noConfusion h
    | some k =>
      rw [hk] at h
      have ih := observeMap_headers j rest (mapInsert k v m)
        ⟨setInsert k₀ hs.origHeaders, setInsert k hs.headers⟩ m' hs' h
      constructor
      · intro s
        rw [(ih.1 s)]
        dsimp only
        rw [mem_setInsert]
        constructor
        · rintro ((rfl | hmem) | ⟨kv, hkv, htr⟩)
          · exact Or.inr ⟨(k₀, v), by simp, by simp [hk]⟩
          · exact Or.inl hmem
          · exact Or.inr ⟨kv, by simp [hkv], htr⟩
        · rintro (hmem | ⟨kv, hkv, htr⟩)
          · exact Or.inl (Or.inr hmem)
          · rcases List.mem_cons.mp hkv with rfl | hkv'
            · rw [hk] at htr
              exact Or.inl (Or.inl (by injection htr with he; exact he.symm))
            · exact Or.inr ⟨kv, hkv', htr⟩
      · intro hsort
        exact ih.2 (sorted_setInsert k hs.headers hsort)

theorem observeAll_headers (j : Json2Csv) :
    ∀ oms hs ms' hs', observeAll j oms hs = some (ms', hs') →
      (∀ s, s ∈ hs'.headers ↔
        s ∈ hs.headers ∨ ∃ om ∈ oms, ∃ kv ∈ om, j.transformKey kv.1 = some s) ∧
      (StrSorted hs.headers → StrSorted hs'.headers)
  | [], hs, ms', hs', h => by
    simp only [observeAll, Option.some.injEq, Prod.mk.injEq] at h
    rw [← h.2]
    simp
  | om :: oms, hs, ms', hs', h => by
    simp only [observeAll] at h
    cases hm : observeMap j om [] hs with
    | none => rw [hm] at h; exact Option.noConfusion h
    | some p =>
      rw [hm] at h
      rcases p with ⟨m, hsMid⟩
      dsimp only at h
      cases ha : observeAll j oms hsMid with
      | none => simp [ha] at h
      | some q =>
        rcases q with ⟨ms'', hs''⟩
        rw [ha] at h
        simp only [Option.some.injEq, Prod.mk.injEq] at h
        have hobs := observeMap_headers j om [] hs m hsMid hm
        have ih := observeAll_headers j oms hsMid ms'' hs'' ha
        rw [h.2] at ih
        constructor
        · intro s
          rw [ih.1 s, hobs.1 s]
          constructor
          · rintro ((hmem | ⟨kv, hkv, htr⟩) | ⟨om', hom', hkv⟩)
            · exact Or.inl hmem
            · exact Or.inr ⟨om, by simp, kv, hkv, htr⟩
            · exact Or.inr ⟨om', by simp [hom'], hkv⟩
          · rintro (hmem | ⟨om', hom', kv, hkv, htr⟩)
            · exact Or.inl (Or.inl hmem)
            · rcases List.mem_cons.mp hom' with rfl | hom''
              · exact Or.inl (Or.inr ⟨kv, hkv, htr⟩)
              · exact Or.inr ⟨om', hom'', kv, hkv, htr⟩
        · intro hsort
          exact ih.2 (hobs.2 hsort)



theorem buildRecord_length : ∀ hdrs m, (buildRecord hdrs m).length = hdrs.length
  | [], _ => rfl
  | h :: hs, m => by
    simp only [buildRecord]
    rcases hrem : mapRemove h m with ⟨ov, m'⟩
    cases ov <;> simp [buildRecord_length hs m']

theorem mapRemove_fst (k : String) : ∀ m, (mapRemove k m).1 = mapGet k m
  | [] => rfl
  | (k', v) :: rest => by
    simp only [mapRemove, mapGet]
    split_ifs with h
    · rfl
    · exact mapRemove_fst k rest

theorem mapGet_remove_ne (k a : String) (hka : k ≠ a) :
    ∀ m, mapGet k (mapRemove a m).2 = mapGet k m
  | [] => rfl
  | (k', v) :: rest => by
    by_cases h1 : a = k'
    · subst h1
      simp only [mapRemove, if_true]
      simp only [mapGet, if_neg hka]
    · simp only [mapRemove, if_neg h1]
      simp only [mapGet]
      split_ifs with h2
      · rfl
      · exact mapGet_remove_ne k a hka rest

theorem buildRecord_eq_map : ∀ hdrs m, hdrs.Nodup →
    buildRecord hdrs m = hdrs.map (fun h =>
      match mapGet h m with
      | some v => renderValue v
      | none => "")
  | [], _, _ => rfl
  | h :: hs, m, hnd => by
    rcases List.nodup_cons.mp hnd with ⟨hnotin, hnd'⟩
    have hfst : (mapRemove h m).1 = mapGet h m := mapRemove_fst h m
    simp only [buildRecord, List.map_cons]
    rcases hrem : mapRemove h m with ⟨ov, m'⟩
    rw [hrem] at hfst
    dsimp only at hfst
    have htail : buildRecord hs m' = hs.map (fun k =>
        match mapGet k m with
        | some v => renderValue v
        | none => "") := by
      rw [buildRecord_eq_map hs m' hnd']
      refine List.map_congr_left ?_
      intro k hk
      have hk' : k ≠ h := fun he => hnotin (he ▸ hk)
      have hm' : m' = (mapRemove h m).2 := by rw [hrem]
      rw [hm', mapGet_remove_ne k h hk' m]
    cases ov with
    | some v =>
      dsimp only
      rw [htail, ← hfst]
    | none =>
      dsimp only
      rw [htail, ← hfst]



/-- Fixture: a flattener configured with separator `"."`, plain array
formatting, empties not preserved. -/
def flDot : Flattener := ⟨".", .plain, false, false⟩

/-- Fixture: a flattener with `Surrounded` array formatting. -/
def flBracket : Flattener := ⟨".", .surrounded "[" "]", false, false⟩

/-- Fixture: the external flattener restricted to already-flat objects
(it returns them unchanged), failing on anything else. -/
def flattenId : FlattenFn := fun v =>
  match v with
  | .obj fs => .ok (.obj fs)
  | _ => .error "not an object"

/-- Fixture: the safe-config flattening of
`{"a": {"b": 1}, "a.b": 2}` with separator `"."`: keys `a.b` and
`a␝b` in `BTreeMap` order. -/
def flattenCollide : FlattenFn := fun _ =>
  .ok (.obj [("a.b", .num "2"), ("a␝b", .num "1")])

/-- Fixture: the JSON object `{"a": {"b": 1}, "a.b": 2}`. -/
def objColl : Json := .obj [("a", .obj [("b", .num "1")]), ("a.b", .num "2")]

/-- Fixture: the safe-config flattening of `{"a": {"b": 1}}` with
separator `"."`. -/
def flattenNested : FlattenFn := fun _ => .ok (.obj [("a␝b", .num "1")])

/-- Fixture: the JSON object `{"a": {"b": 1}}`. -/
def objNested : Json := .obj [("a", .obj [("b", .num "1")])]

/-- Fixture: a flat two-key object. -/
def objFlatAB : Json := .obj [("a", .num "1"), ("b", .num "3")]



/-- Claim C6: for every finalized header set and every flattened object
map, `build_record` returns a vector with exactly one string per header,
so every data row has exactly as many fields as the header row. -/
theorem claim6_build_record_length (hdrs : List String) (m : FlatMap) :
    (buildRecord hdrs m).length = hdrs.length :=
  buildRecord_length hdrs m

/-- Claim C7: for each header in sorted order, `build_record` looks up
and removes the matching key from the flattened map and renders a JSON
string verbatim, a number or boolean as its canonical literal text, and
null, an empty array, an empty object, or an absent key as the empty
string.  (With distinct headers, the remove-as-you-go loop is lookup in
the original map.) -/
theorem claim7_build_record_rendering (hdrs : List String) (m : FlatMap)
    (hnd : hdrs.Nodup) :
    buildRecord hdrs m = hdrs.map (fun h =>
      match mapGet h m with
      | some v => renderValue v
      | none => "") ∧
    (∀ s, renderValue (.str s) = s) ∧
    (∀ b, renderValue (.bool b) = if b then "true" else "false") ∧
    (∀ lit, renderValue (.num lit) = lit) ∧
    renderValue .null = "" ∧ renderValue (.arr []) = "" ∧
    renderValue (.obj []) = "" :=
  ⟨buildRecord_eq_map hdrs m hnd, fun _ => rfl, fun _ => rfl, fun _ => rfl,
    rfl, rfl, rfl⟩

/-- Witness for C7 at concrete input. -/
theorem claim7_witness :
    (["a", "b"] : List String).Nodup ∧
    (buildRecord ["a", "b"] [("a", Json.num "1")] = (["a", "b"]).map (fun h =>
      match mapGet h [("a", Json.num "1")] with
      | some v => renderValue v
      | none => "") ∧
    (∀ s, renderValue (.str s) = s) ∧
    (∀ b, renderValue (.bool b) = if b then "true" else "false") ∧
    (∀ lit, renderValue (.num lit) = lit) ∧
    renderValue .null = "" ∧ renderValue (.arr []) = "" ∧
    renderValue (.obj []) = "") :=
  ⟨by decide, claim7_build_record_rendering ["a", "b"] [("a", Json.num "1")] (by decide)⟩

/-- Claim C9: for every `Json2Csv` built by `Json2Csv::new`, the safe
flattener has the same array-formatting variant as the caller-provided
one (`Plain` stays `Plain`; `Surrounded` stays `Surrounded` with the
reserved markers substituted), and therefore `transform_key` never
reaches its `unreachable!` branch. -/
theorem claim9_variant_invariant (fl : Flattener) :
    ((fl.arrayFormatting = .plain →
        (Json2Csv.new fl).flattener.arrayFormatting = .plain) ∧
      (∀ a b, fl.arrayFormatting = .surrounded a b →
        (Json2Csv.new fl).flattener.arrayFormatting
          = .surrounded arrayStartReserved arrayEndReserved)) ∧
    ∀ key, ((Json2Csv.new fl).transformKey key).isSome = true :=
  ⟨⟨fun h => new_arrayFormatting_plain fl h,
    fun a b h => new_arrayFormatting_surrounded fl a b h⟩,
    fun key => transformKey_new_isSome fl key⟩

/-- Witness for C9 at a concrete `Surrounded` configuration. -/
theorem claim9_witness :
    (Json2Csv.new flBracket).flattener.arrayFormatting
        = .surrounded arrayStartReserved arrayEndReserved ∧
    ((Json2Csv.new flBracket).transformKey "a␝b␞0␟").isSome = true :=
  ⟨(claim9_variant_invariant flBracket).1.2 "[" "]" rfl,
    (claim9_variant_invariant flBracket).2 "a␝b␞0␟"⟩

/-- Claim C10: whenever `convert_from_array` returns an error, nothing
has been written to the CSV sink. -/
theorem claim10_no_writes_on_error (j : Json2Csv) (flatten : FlattenFn)
    (objects : List Json) (e : Error)
    (h : (j.convertFromArray flatten objects).result = .err e) :
    (j.convertFromArray flatten objects).writes = [] := by
  unfold Json2Csv.convertFromArray at h ⊢
  cases hfa : flattenAll flatten objects with
  | panic => simp [hfa]
  | err e' => simp [hfa]
  | ok ms =>
    rw [hfa] at h
    dsimp only at h ⊢
    cases hobs : observeAll j ms ⟨[], []⟩ with
    | none => simp
    | some p =>
      rcases p with ⟨ms', hs⟩
      rw [hobs] at h
      dsimp only at h ⊢
      by_cases he : hs.headers = []
      · rw [if_pos he] at h
        simp at h
      · rw [if_neg he] at h ⊢
        by_cases hc : hs.headers.length ≠ hs.origHeaders.length
        · rw [if_pos hc]
        · rw [if_neg hc] at h
          simp at h

/-- Witness for C10: a flattened-key collision leaves the sink
untouched. -/
theorem claim10_witness :
    ((Json2Csv.new flDot).convertFromArray flattenCollide [objColl]).result
        = .err .flattenedKeysCollision ∧
    ((Json2Csv.new flDot).convertFromArray flattenCollide [objColl]).writes = [] :=
  ⟨by decide,
    claim10_no_writes_on_error (Json2Csv.new flDot) flattenCollide [objColl]
      .flattenedKeysCollision (by decide)⟩



/-- Fixture: the external flattener returning an empty flat object. -/
def flattenEmpty : FlattenFn := fun _ => .ok (.obj [])

/-- Claim C1: for every non-empty sequence of JSON objects with no
intrinsic key collisions, `convert_from_array` on the parsed values and
`convert_from_reader` on the same decoded values, under the same
configuration, hand identical records to the CSV writer and hence write
byte-identical output to their sinks (stated for an arbitrary byte
rendering of the written records). -/
theorem claim1_array_reader_equivalence (fl : Flattener) (flatten : FlattenFn)
    (objects : List Json)
    (hne : objects ≠ [])
    (hnc : ((Json2Csv.new fl).convertFromArray flatten objects).result
      ≠ .err .flattenedKeysCollision)
    (csvBytes : List (List String) → List Nat) :
    csvBytes ((Json2Csv.new fl).convertFromArray flatten objects).writes
      = csvBytes ((Json2Csv.new fl).convertFromReader flatten objects).writes := by
  rw [(convert_writes_result_agree (Json2Csv.new fl) flatten objects
    (transformTotal_new fl)).1]

/-- Witness for C1 at a concrete conversion. -/
theorem claim1_witness :
    ([objFlatAB] : List Json) ≠ [] ∧
    ((Json2Csv.new flDot).convertFromArray flattenId [objFlatAB]).result
      ≠ .err .flattenedKeysCollision ∧
    (fun rs : List (List String) => [rs.length])
        ((Json2Csv.new flDot).convertFromArray flattenId [objFlatAB]).writes
      = (fun rs : List (List String) => [rs.length])
        ((Json2Csv.new flDot).convertFromReader flattenId [objFlatAB]).writes :=
  ⟨List.cons_ne_nil _ _, by decide,
    claim1_array_reader_equivalence flDot flattenId [objFlatAB]
      (List.cons_ne_nil _ _) (by decide) (fun rs => [rs.length])⟩

/-- Claim C3: an input that yields zero flattened keys makes both entry
points return `Ok` and write nothing; the empty check precedes the
collision check, so this case is never reported as a collision error. -/
theorem claim3_empty_headers_short_circuit (fl : Flattener) (flatten : FlattenFn)
    (objects : List Json) (ms ms' : List FlatMap) (hs : Headers)
    (hflat : flattenAll flatten objects = .ok ms)
    (hobs : observeAll (Json2Csv.new fl) ms ⟨[], []⟩ = some (ms', hs))
    (hempty : hs.headers = []) :
    (Json2Csv.new fl).convertFromArray flatten objects = ⟨[], .ok ()⟩ ∧
    ((Json2Csv.new fl).convertFromReader flatten objects).writes = [] ∧
    ((Json2Csv.new fl).convertFromReader flatten objects).result = .ok () := by
  have hT := transformTotal_new fl
  rcases readerLoop_ok (Json2Csv.new fl) flatten hT objects ⟨[], []⟩ ms hflat
    with ⟨⟨spill, hs2⟩, hoa, hrl⟩
  rw [hobs, Option.some.injEq, Prod.mk.injEq] at hoa
  obtain ⟨hms, hh⟩ := hoa
  have hempty2 : hs2.headers = [] := by rw [← hh]; exact hempty
  refine ⟨?_, ?_, ?_⟩
  · unfold Json2Csv.convertFromArray
    rw [hflat]
    dsimp only
    rw [hobs]
    dsimp only
    rw [if_pos hempty]
  · unfold Json2Csv.convertFromReader
    rw [hrl]
    dsimp only
    rw [if_pos hempty2]
  · unfold Json2Csv.convertFromReader
    rw [hrl]
    dsimp only
    rw [if_pos hempty2]

/-- Witness for C3 at a concrete empty-result conversion. -/
theorem claim3_witness :
    flattenAll flattenEmpty [Json.obj []] = .ok [[]] ∧
    observeAll (Json2Csv.new flDot) [[]] ⟨[], []⟩ = some ([[]], ⟨[], []⟩) ∧
    (⟨[], []⟩ : Headers).headers = [] ∧
    ((Json2Csv.new flDot).convertFromArray flattenEmpty [Json.obj []]
        = ⟨[], .ok ()⟩ ∧
      ((Json2Csv.new flDot).convertFromReader flattenEmpty [Json.obj []]).writes = [] ∧
      ((Json2Csv.new flDot).convertFromReader flattenEmpty [Json.obj []]).result
        = .ok ()) :=
  ⟨rfl, rfl, rfl,
    claim3_empty_headers_short_circuit flDot flattenEmpty [Json.obj []]
      [[]] [[]] ⟨[], []⟩ rfl rfl rfl⟩

/-- Claim C4 counterexample: with separator `"."` and input
`{"a": {"b": 1}}`, the safe-form flattened object has the single key
`a␝b`, but the document serialized to the spill file carries the key
`a.b` — the caller-facing form, not the safe form the claim states. -/
theorem claim4_counterexample :
    flattenAll flattenNested [objNested] = .ok [[("a␝b", Json.num "1")]] ∧
    ((Json2Csv.new flDot).convertFromReader flattenNested [objNested]).spill.map
        (fun m => m.map Prod.fst) = [["a.b"]] ∧
    ((Json2Csv.new flDot).convertFromReader flattenNested [objNested]).spill.map
        (fun m => m.map Prod.fst) ≠ [["a␝b"]] :=
  ⟨rfl, rfl, by decide⟩

/-- Claim C4 (amended): during pass 1 of `convert_from_reader`, every
flattened object is re-serialized to the spill (temporary) file with its
keys already transformed to the caller-facing public separator/marker
form, one JSON document per record, preserving input order. -/
theorem claim4_spill_public_form (fl : Flattener) (flatten : FlattenFn)
    (objects : List Json) (ms : List FlatMap)
    (hflat : flattenAll flatten objects = .ok ms) :
    toPublicMaps (Json2Csv.new fl) ms
      = some ((Json2Csv.new fl).convertFromReader flatten objects).spill ∧
    ((Json2Csv.new fl).convertFromReader flatten objects).spill.length
      = objects.length := by
  have hT := transformTotal_new fl
  rcases readerLoop_ok (Json2Csv.new fl) flatten hT objects ⟨[], []⟩ ms hflat
    with ⟨⟨spill, hs2⟩, hoa, hrl⟩
  have hmaps := observeAll_maps (Json2Csv.new fl) ms ⟨[], []⟩ spill hs2 hoa
  have hlen := observeAll_length (Json2Csv.new fl) ms ⟨[], []⟩ spill hs2 hoa
  have hflen := flattenAll_length flatten objects ms hflat
  have hspill : ((Json2Csv.new fl).convertFromReader flatten objects).spill
      = spill := by
    unfold Json2Csv.convertFromReader
    rw [hrl]
    dsimp only
    by_cases he : hs2.headers = []
    · rw [if_pos he]
    · rw [if_neg he]
      by_cases hc : hs2.headers.length ≠ hs2.origHeaders.length
      · rw [if_pos hc]
      · rw [if_neg hc]
  rw [hspill]
  refine ⟨hmaps, ?_⟩
  rw [hlen, hflen]

/-- Witness for the amended C4 at a concrete conversion. -/
theorem claim4_witness :
    flattenAll flattenNested [objNested] = .ok [[("a␝b", Json.num "1")]] ∧
    toPublicMaps (Json2Csv.new flDot) [[("a␝b", Json.num "1")]]
      = some ((Json2Csv.new flDot).convertFromReader flattenNested
          [objNested]).spill ∧
    ((Json2Csv.new flDot).convertFromReader flattenNested [objNested]).spill.length
      = [objNested].length :=
  ⟨rfl,
    (claim4_spill_public_form flDot flattenNested [objNested]
      [[("a␝b", Json.num "1")]] rfl).1,
    (claim4_spill_public_form flDot flattenNested [objNested]
      [[("a␝b", Json.num "1")]] rfl).2⟩



/-- Claim C2: with a non-empty flattened key set, each entry point
returns the key-collision error exactly when the number of distinct
safe-form keys differs from the number of distinct public-form keys
accumulated over all objects; an intra-object public-form collision is
detected by this same set-size check, identically to a cross-object
collision. -/
theorem claim2_collision_iff (fl : Flattener) (flatten : FlattenFn)
    (objects : List Json) (ms ms' : List FlatMap) (hs : Headers)
    (hflat : flattenAll flatten objects = .ok ms)
    (hobs : observeAll (Json2Csv.new fl) ms ⟨[], []⟩ = some (ms', hs))
    (hne : hs.headers ≠ []) :
    (((Json2Csv.new fl).convertFromArray flatten objects).result
        = .err .flattenedKeysCollision
      ↔ hs.headers.length ≠ hs.origHeaders.length) ∧
    (((Json2Csv.new fl).convertFromReader flatten objects).result
        = .err .flattenedKeysCollision
      ↔ hs.headers.length ≠ hs.origHeaders.length) := by
  have hT := transformTotal_new fl
  rcases readerLoop_ok (Json2Csv.new fl) flatten hT objects ⟨[], []⟩ ms hflat
    with ⟨⟨spill, hs2⟩, hoa, hrl⟩
  rw [hobs, Option.some.injEq, Prod.mk.injEq] at hoa
  obtain ⟨hms, hh⟩ := hoa
  have hne2 : hs2.headers ≠ [] := by rw [← hh]; exact hne
  have harr : ((Json2Csv.new fl).convertFromArray flatten objects).result
      = if hs.headers.length ≠ hs.origHeaders.length
        then .err .flattenedKeysCollision else .ok () := by
    unfold Json2Csv.convertFromArray
    rw [hflat]
    dsimp only
    rw [hobs]
    dsimp only
    rw [if_neg hne]
    by_cases hc : hs.headers.length ≠ hs.origHeaders.length
    · rw [if_pos hc, if_pos hc]
    · rw [if_neg hc, if_neg hc]
  have hrdr : ((Json2Csv.new fl).convertFromReader flatten objects).result
      = if hs.headers.length ≠ hs.origHeaders.length
        then .err .flattenedKeysCollision else .ok () := by
    unfold Json2Csv.convertFromReader
    rw [hrl]
    dsimp only
    rw [if_neg hne2, ← hh]
    by_cases hc : hs.headers.length ≠ hs.origHeaders.length
    · rw [if_pos hc, if_pos hc]
    · rw [if_neg hc, if_neg hc]
  constructor
  · rw [harr]
    split_ifs with hc <;> simp [hc]
  · rw [hrdr]
    split_ifs with hc <;> simp [hc]

/-- Witness for C2: an intra-object collision (`{"a": {"b": 1}, "a.b": 2}`
with separator `"."`). -/
theorem claim2_witness :
    flattenAll flattenCollide [objColl]
      = .ok [[("a.b", Json.num "2"), ("a␝b", Json.num "1")]] ∧
    observeAll (Json2Csv.new flDot)
        [[("a.b", Json.num "2"), ("a␝b", Json.num "1")]] ⟨[], []⟩
      = some ([[("a.b", Json.num "1")]], ⟨["a.b", "a␝b"], ["a.b"]⟩) ∧
    (["a.b"] : List String) ≠ [] ∧
    ((((Json2Csv.new flDot).convertFromArray flattenCollide [objColl]).result
        = .err .flattenedKeysCollision
      ↔ (["a.b"] : List String).length ≠ (["a.b", "a␝b"] : List String).length) ∧
     (((Json2Csv.new flDot).convertFromReader flattenCollide [objColl]).result
        = .err .flattenedKeysCollision
      ↔ (["a.b"] : List String).length ≠ (["a.b", "a␝b"] : List String).length)) :=
  ⟨rfl, rfl, by decide,
    claim2_collision_iff flDot flattenCollide [objColl]
      [[("a.b", Json.num "2"), ("a␝b", Json.num "1")]]
      [[("a.b", Json.num "1")]] ⟨["a.b", "a␝b"], ["a.b"]⟩ rfl rfl (by decide)⟩

/-- Claim C5: on every successful conversion the header row is the
lexicographically sorted, deduplicated union, in the caller-facing
separator/marker form, of all keys produced by flattening every input
object. -/
theorem claim5_sorted_header_union (fl : Flattener) (flatten : FlattenFn)
    (objects : List Json) (ms ms' : List FlatMap) (hs : Headers)
    (hflat : flattenAll flatten objects = .ok ms)
    (hobs : observeAll (Json2Csv.new fl) ms ⟨[], []⟩ = some (ms', hs))
    (hne : hs.headers ≠ [])
    (hnc : hs.headers.length = hs.origHeaders.length) :
    ((Json2Csv.new fl).convertFromArray flatten objects).writes.head?
        = some hs.headers ∧
    ((Json2Csv.new fl).convertFromReader flatten objects).writes.head?
        = some hs.headers ∧
    StrSorted hs.headers ∧ hs.headers.Nodup ∧
    (∀ s, s ∈ hs.headers ↔
      ∃ om ∈ ms, ∃ kv ∈ om, (Json2Csv.new fl).transformKey kv.1 = some s) := by
  have hT := transformTotal_new fl
  have hcoll : ¬ hs.headers.length ≠ hs.origHeaders.length := fun hx => hx hnc
  rcases readerLoop_ok (Json2Csv.new fl) flatten hT objects ⟨[], []⟩ ms hflat
    with ⟨⟨spill, hs2⟩, hoa, hrl⟩
  rw [hobs, Option.some.injEq, Prod.mk.injEq] at hoa
  obtain ⟨hms, hh⟩ := hoa
  have hne2 : hs2.headers ≠ [] := by rw [← hh]; exact hne
  have hchar := observeAll_headers (Json2Csv.new fl) ms ⟨[], []⟩ ms' hs hobs
  have hsorted : StrSorted hs.headers := hchar.2 List.Pairwise.nil
  refine ⟨?_, ?_, hsorted, strSorted_nodup hsorted, ?_⟩
  · unfold Json2Csv.convertFromArray
    rw [hflat]
    dsimp only
    rw [hobs]
    dsimp only
    rw [if_neg hne, if_neg hcoll]
    rfl
  · unfold Json2Csv.convertFromReader
    rw [hrl]
    dsimp only
    rw [if_neg hne2, ← hh, if_neg hcoll]
    rw [hh]
    rfl
  · intro s
    rw [hchar.1 s]
    simp

/-- Witness for C5 at a concrete two-key conversion (the union clause
instantiated at the header `"a"`). -/
theorem claim5_witness :
    flattenAll flattenId [objFlatAB]
      = .ok [[("a", Json.num "1"), ("b", Json.num "3")]] ∧
    observeAll (Json2Csv.new flDot)
        [[("a", Json.num "1"), ("b", Json.num "3")]] ⟨[], []⟩
      = some ([[("a", Json.num "1"), ("b", Json.num "3")]],
          ⟨["a", "b"], ["a", "b"]⟩) ∧
    (["a", "b"] : List String) ≠ [] ∧
    (["a", "b"] : List String).length = (["a", "b"] : List String).length ∧
    ((Json2Csv.new flDot).convertFromArray flattenId [objFlatAB]).writes.head?
      = some ["a", "b"] ∧
    StrSorted ["a", "b"] :=
  ⟨rfl, rfl, by decide, rfl,
    (claim5_sorted_header_union flDot flattenId [objFlatAB]
      [[("a", Json.num "1"), ("b", Json.num "3")]]
      [[("a", Json.num "1"), ("b", Json.num "3")]]
      ⟨["a", "b"], ["a", "b"]⟩ rfl rfl (by decide) rfl).1,
    (claim5_sorted_header_union flDot flattenId [objFlatAB]
      [[("a", Json.num "1"), ("b", Json.num "3")]]
      [[("a", Json.num "1"), ("b", Json.num "3")]]
      ⟨["a", "b"], ["a", "b"]⟩ rfl rfl (by decide) rfl).2.2.1⟩

/-- Claim C8: on success with a non-empty header set, each entry point
writes exactly one header row followed by one data row per input object,
with the data rows in the original input order (row `i` renders the
public-form map of input object `i`). -/
theorem claim8_one_row_per_object (fl : Flattener) (flatten : FlattenFn)
    (objects : List Json) (ms ms' : List FlatMap) (hs : Headers)
    (hflat : flattenAll flatten objects = .ok ms)
    (hobs : observeAll (Json2Csv.new fl) ms ⟨[], []⟩ = some (ms', hs))
    (hne : hs.headers ≠ [])
    (hnc : hs.headers.length = hs.origHeaders.length) :
    ((Json2Csv.new fl).convertFromArray flatten objects).writes
        = hs.headers :: ms'.map (buildRecord hs.headers) ∧
    ((Json2Csv.new fl).convertFromReader flatten objects).writes
        = hs.headers :: ms'.map (buildRecord hs.headers) ∧
    toPublicMaps (Json2Csv.new fl) ms = some ms' ∧
    ms'.length = objects.length := by
  have hT := transformTotal_new fl
  have hcoll : ¬ hs.headers.length ≠ hs.origHeaders.length := fun hx => hx hnc
  rcases readerLoop_ok (Json2Csv.new fl) flatten hT objects ⟨[], []⟩ ms hflat
    with ⟨⟨spill, hs2⟩, hoa, hrl⟩
  rw [hobs, Option.some.injEq, Prod.mk.injEq] at hoa
  obtain ⟨hms, hh⟩ := hoa
  have hne2 : hs2.headers ≠ [] := by rw [← hh]; exact hne
  refine ⟨?_, ?_, observeAll_maps (Json2Csv.new fl) ms ⟨[], []⟩ ms' hs hobs, ?_⟩
  · unfold Json2Csv.convertFromArray
    rw [hflat]
    dsimp only
    rw [hobs]
    dsimp only
    rw [if_neg hne, if_neg hcoll]
  · unfold Json2Csv.convertFromReader
    rw [hrl]
    dsimp only
    rw [if_neg hne2, ← hh, if_neg hcoll]
    rw [hh, hms]
  · rw [observeAll_length (Json2Csv.new fl) ms ⟨[], []⟩ ms' hs hobs,
      flattenAll_length flatten objects ms hflat]

/-- Witness for C8 at a concrete two-object conversion. -/
theorem claim8_witness :
    flattenAll flattenId [objFlatAB, Json.obj [("b", Json.num "4")]]
      = .ok [[("a", Json.num "1"), ("b", Json.num "3")],
          [("b", Json.num "4")]] ∧
    observeAll (Json2Csv.new flDot)
        [[("a", Json.num "1"), ("b", Json.num "3")], [("b", Json.num "4")]]
        ⟨[], []⟩
      = some ([[("a", Json.num "1"), ("b", Json.num "3")],
            [("b", Json.num "4")]],
          ⟨["a", "b"], ["a", "b"]⟩) ∧
    (["a", "b"] : List String) ≠ [] ∧
    (["a", "b"] : List String).length = (["a", "b"] : List String).length ∧
    ((Json2Csv.new flDot).convertFromArray flattenId
        [objFlatAB, Json.obj [("b", Json.num "4")]]).writes
      = ["a", "b"] :: ([[("a", Json.num "1"), ("b", Json.num "3")],
          [("b", Json.num "4")]]).map (buildRecord ["a", "b"]) :=
  ⟨rfl, rfl, by decide, rfl,
    (claim8_one_row_per_object flDot flattenId
      [objFlatAB, Json.obj [("b", Json.num "4")]]
      [[("a", Json.num "1"), ("b", Json.num "3")], [("b", Json.num "4")]]
      [[("a", Json.num "1"), ("b", Json.num "3")], [("b", Json.num "4")]]
      ⟨["a", "b"], ["a", "b"]⟩ rfl rfl (by decide) rfl).1⟩

end JsonToCsv
